import Mathlib

/-!
Verification of the media-serving and thumbnail-derivation pipeline.

The development shallowly embeds the two guarded components of the
repository:

* the object-retrieval gateway in src/functions/r2/[key].ts
  (rate limiting, key decoding, path-safety check, content negotiation),
* the client-side video frame-capture pipeline in
  src/frontend/src/components/MediaCard.tsx (VideoThumbnailGenerator).

JS strings are modelled as List Char.  A fallible JS computation is an
Option value: none models an exception escaping the handler.  The JS
builtins encodeURIComponent and decodeURIComponent are modelled at byte
level following the ECMA-262 Encode and Decode algorithms, with UTF-8
encoding of code points written out over Nat.
-/

/-- JS String.startsWith on char lists. -/
def startsWithL : List Char → List Char → Bool
  | [], _ => true
  | _ :: _, [] => false
  | p :: ps, c :: cs => p == c && startsWithL ps cs

/-- JS String.includes on char lists: the pattern occurs as a contiguous substring. -/
def hasSub (pat : List Char) : List Char → Bool
  | [] => pat.isEmpty
  | c :: rest => startsWithL pat (c :: rest) || hasSub pat rest

/-- Scanner used to reason about occurrences of the delimiter triple of
underscores: k is the length of the underscore run ending just before the
current position; the result says whether a run of three consecutive
underscores appears. -/
def hasRun : Nat → List Char → Bool
  | _, [] => false
  | k, c :: rest => if c = '_' then (if 2 ≤ k then true else hasRun (k + 1) rest) else hasRun 0 rest

/-- Whether the list ends with an underscore (JS s.endsWith with a one-char pattern). -/
def endsU (s : List Char) : Bool :=
  match s.getLast? with
  | some c => c == '_'
  | none => false

/-- JS token.split for the fixed three-underscore delimiter of the key codec
(src/functions/r2/[key].ts line 19): leftmost, non-overlapping matches. -/
def splitOn3 : List Char → List (List Char)
  | '_' :: '_' :: '_' :: rest => [] :: splitOn3 rest
  | c :: rest => (c :: (splitOn3 rest).headD []) :: (splitOn3 rest).tail
  | [] => [[]]

/-- JS Array.prototype.join with separator "/" (line 19 of the gateway). -/
def joinSlash : List (List Char) → List Char
  | [] => []
  | [x] => x
  | x :: rest => x ++ '/' :: joinSlash rest

/-- Join with the three-underscore delimiter: how clients assemble the encoded
key (comment on line 17 of src/functions/r2/[key].ts). -/
def joinDelim : List (List Char) → List Char
  | [] => []
  | [x] => x
  | x :: rest => x ++ '_' :: '_' :: '_' :: joinDelim rest

/-- The characters encodeURIComponent leaves unescaped
(ECMA-262 uriUnescaped: alphanumeric and - _ . ! ~ * ' ( ) ). -/
def isUnreserved (c : Char) : Bool :=
  let n := c.toNat
  (65 ≤ n && n ≤ 90) || (97 ≤ n && n ≤ 122) || (48 ≤ n && n ≤ 57) ||
  n == 45 || n == 95 || n == 46 || n == 33 || n == 126 || n == 42 || n == 39 || n == 40 || n == 41

/-- UTF-8 bytes of a Unicode scalar value, written over Nat. -/
def utf8Bytes (n : Nat) : List Nat :=
  if n < 128 then [n]
  else if n < 2048 then [192 + n / 64, 128 + n % 64]
  else if n < 65536 then [224 + n / 4096, 128 + n / 64 % 64, 128 + n % 64]
  else [240 + n / 262144, 128 + n / 4096 % 64, 128 + n / 64 % 64, 128 + n % 64]

/-- Uppercase hex digit of a value below 16, as emitted by encodeURIComponent. -/
def hexDigit (n : Nat) : Char :=
  if n < 10 then Char.ofNat (48 + n) else Char.ofNat (55 + n)

/-- The three-character escape %XY of one byte. -/
def pctByte (b : Nat) : List Char := ['%', hexDigit (b / 16), hexDigit (b % 16)]

/-- encodeURIComponent on a single character. -/
def encChar (c : Char) : List Char :=
  if isUnreserved c then [c] else (utf8Bytes c.toNat).flatMap pctByte

/-- JS encodeURIComponent, modelled from ECMA-262 Encode. -/
def encodeURIComponent (s : List Char) : List Char := s.flatMap encChar

/-- Value of one hex digit character, accepting both cases (ECMA-262 Decode). -/
def hexVal (c : Char) : Option Nat :=
  let n := c.toNat
  if 48 ≤ n && n ≤ 57 then some (n - 48)
  else if 65 ≤ n && n ≤ 70 then some (n - 55)
  else if 97 ≤ n && n ≤ 102 then some (n - 87)
  else none

/-- Token of the percent-escape scanner: a literal character or one escaped byte. -/
inductive Tok where
  | lit (c : Char)
  | byte (b : Nat)
deriving DecidableEq, Repr

/-- First stage of ECMA-262 Decode: scan the input into literal characters and
escaped bytes; a percent sign not followed by two hex digits is a URIError. -/
def toks : List Char → Option (List Tok)
  | [] => some []
  | c :: rest =>
    if c = '%' then
      match rest with
      | h1 :: h2 :: rest2 =>
        match hexVal h1, hexVal h2 with
        | some a, some b => (toks rest2).map (fun ts => Tok.byte (16 * a + b) :: ts)
        | _, _ => none
      | _ => none
    else (toks rest).map (fun ts => Tok.lit c :: ts)

/-- Whether a byte is a UTF-8 continuation byte. -/
def isCont (b : Nat) : Bool := 128 ≤ b && b < 192

/-- Pending state of the UTF-8 byte automaton of ECMA-262 Decode: either no
escape sequence is open, or k more continuation bytes are expected, acc is
the scalar value accumulated so far, and lo is the smallest scalar value
the finished sequence may legally denote (shortest-form check). -/
inductive UState where
  | clean
  | need (k : Nat) (acc : Nat) (lo : Nat)
deriving DecidableEq, Repr

/-- Second stage of ECMA-262 Decode: literal characters pass through, runs of
escaped bytes must form valid UTF-8; a lead byte of 194 to 223 opens a
two-byte sequence, 224 to 239 a three-byte one, 240 to 244 a four-byte
one; every following byte must be a continuation byte, and the finished
scalar value must be in shortest form, no surrogate, and at most 0x10FFFF;
anything else is a URIError. -/
def detoksSM : UState → List Tok → Option (List Char)
  | UState.clean, [] => some []
  | UState.clean, Tok.lit c :: rest => (detoksSM UState.clean rest).map (fun s => c :: s)
  | UState.clean, Tok.byte v :: rest =>
    if v < 128 then (detoksSM UState.clean rest).map (fun s => Char.ofNat v :: s)
    else if v < 194 then none
    else if v < 224 then detoksSM (UState.need 1 (v - 192) 128) rest
    else if v < 240 then detoksSM (UState.need 2 (v - 224) 2048) rest
    else if v < 245 then detoksSM (UState.need 3 (v - 240) 65536) rest
    else none
  | UState.need _ _ _, [] => none
  | UState.need _ _ _, Tok.lit _ :: _ => none
  | UState.need k acc lo, Tok.byte v :: rest =>
    if isCont v then
      let acc2 := acc * 64 + (v - 128)
      if k ≤ 1 then
        if lo ≤ acc2 && acc2 < 1114112 && !(55296 ≤ acc2 && acc2 < 57344) then
          (detoksSM UState.clean rest).map (fun s => Char.ofNat acc2 :: s)
        else none
      else detoksSM (UState.need (k - 1) acc2 lo) rest
    else none

/-- Decoding of a scanned token list from the clean state. -/
def detoks (ts : List Tok) : Option (List Char) := detoksSM UState.clean ts

/-- JS decodeURIComponent, modelled from ECMA-262 Decode; none models the
URIError exception. -/
def decodeURIComponent (s : List Char) : Option (List Char) :=
  (toks s).bind detoks

/-- Encoding of a segment sequence into one key token: each segment is
percent-encoded independently, joined by the three-underscore delimiter
(comment on line 17 of src/functions/r2/[key].ts). -/
def encodeSegments (xs : List (List Char)) : List Char :=
  joinDelim (xs.map encodeURIComponent)

/-- Decoding of a token back into the segment sequence: split on the delimiter
and percent-decode each part (line 19 of the gateway); none models a
URIError escaping from decodeURIComponent. -/
def decodeSegments (t : List Char) : Option (List (List Char)) :=
  (splitOn3 t).mapM decodeURIComponent

/-- The decoded, slash-joined key the gateway computes on line 19. -/
def decodedKey (token : List Char) : Option (List Char) :=
  (decodeSegments token).map joinSlash

/-- The path-safety check of the gateway (line 22):
key.includes with two dot-dot patterns, and key.startsWith a slash. -/
def pathTraversal (key : List Char) : Bool :=
  hasSub ['.', '.', '/'] key || hasSub ['.', '.', '\\'] key || startsWithL ['/'] key

/-- A stored object as the gateway sees it: optional content type metadata and
an abstract identity for the byte stream. -/
structure StoredObject where
  contentType : Option (List Char)
  bodyId : Nat
deriving DecidableEq, Repr

/-- Response body shapes the gateway produces. -/
inductive RBody where
  | text (msg : List Char)
  | jsonErr (error suggestion : List Char)
  | object (bodyId : Nat)
deriving DecidableEq, Repr

/-- An HTTP response of the gateway: status and the headers it sets. -/
structure GResponse where
  status : Nat
  body : RBody
  contentType : Option (List Char)
  cacheControl : Option (List Char)
deriving DecidableEq, Repr

def rateLimitedMsg : List Char := "请求过于频繁，请稍后再试".toList

def invalidPathMsg : List Char := "无效的文件路径".toList

def notFoundMsg : List Char := "未找到".toList

def videoThumbErrMsg : List Char :=
  "视频缩略图需要额外处理，当前系统不支持直接生成视频缩略图".toList

def videoThumbSuggestion : List Char :=
  "请考虑使用第三方视频处理服务或在前端使用默认占位图".toList

def octetStream : List Char := "application/octet-stream".toList

def appJson : List Char := "application/json".toList

/-- Literal value of the cache-control header set on line 39 of the gateway. -/
def longCacheControl : List Char := "public, max-age=31536000".toList

def videoSlash : List Char := "video/".toList

def imageSlash : List Char := "image/".toList

/-- JS truthiness of a url.searchParams.get result: null and the empty string
are falsy, any other string is truthy. -/
def truthy : Option (List Char) → Bool
  | none => false
  | some s => !s.isEmpty

/-- Optional-chaining contentType-startsWith of the gateway
(obj.httpMetadata?.contentType?.startsWith(p) is falsy when absent). -/
def ctStartsWith (p : List Char) : Option (List Char) → Bool
  | none => false
  | some ct => startsWithL p ct

/-- The request handler of src/functions/r2/[key].ts, embedded as a pure
function.  rateAllowed is the verdict of the external checkRateLimit
collaborator; store is the R2 bucket as a partial map; width, height and
quality are the query parameters as url.searchParams.get results.  The
result pairs the produced response (none when an exception escapes the
handler, as for a URIError from decodeURIComponent) with the number of
object-store calls made. -/
def onRequestGet (rateAllowed : Bool) (token : List Char)
    (store : List Char → Option StoredObject)
    (width height quality : Option (List Char)) :
    Option GResponse × Nat :=
  if !rateAllowed then
    (some { status := 429, body := RBody.text rateLimitedMsg,
            contentType := none, cacheControl := none }, 0)
  else
    match decodedKey token with
    | none => (none, 0)
    | some key =>
      if pathTraversal key then
        (some { status := 400, body := RBody.text invalidPathMsg,
                contentType := none, cacheControl := none }, 0)
      else
        match store key with
        | none =>
          (some { status := 404, body := RBody.text notFoundMsg,
                  contentType := none, cacheControl := none }, 1)
        | some obj =>
          let isVideo := ctStartsWith videoSlash obj.contentType
          let wantResize := truthy width || truthy height
          if wantResize && ctStartsWith imageSlash obj.contentType then
            (some { status := 200, body := RBody.object obj.bodyId,
                    contentType := obj.contentType,
                    cacheControl := some longCacheControl }, 1)
          else if wantResize && isVideo then
            (some { status := 400, body := RBody.jsonErr videoThumbErrMsg videoThumbSuggestion,
                    contentType := some appJson, cacheControl := none }, 1)
          else
            (some { status := 200, body := RBody.object obj.bodyId,
                    contentType := some (obj.contentType.getD octetStream),
                    cacheControl := some longCacheControl }, 1)

/-- Effective request limit the gateway passes to checkRateLimit
(line 9: context.env.RATE_LIMIT_REQUESTS or-else 50, JS number truthiness). -/
def effLimit (cfg : Option Nat) : Nat :=
  match cfg with
  | none => 50
  | some n => if n = 0 then 50 else n

/-- Effective window length passed to checkRateLimit
(line 10: context.env.RATE_LIMIT_WINDOW_MS or-else 60000). -/
def effWindow (cfg : Option Nat) : Nat :=
  match cfg with
  | none => 60000
  | some n => if n = 0 then 60000 else n

/-- Path segments of a decoded key, in the sense of the specification wording
(split on the slash separator).  Used only to state a spec-side property. -/
def splitOnChar (d : Char) : List Char → List (List Char)
  | [] => [[]]
  | c :: rest =>
    if c = d then [] :: splitOnChar d rest
    else (c :: (splitOnChar d rest).headD []) :: (splitOnChar d rest).tail

/-- Spec-side predicate: the decoded path contains a dot-dot path segment. -/
def specHasDotDotSegment (key : List Char) : Bool :=
  (splitOnChar '/' key).contains ['.', '.']

/-- Component state of VideoThumbnailGenerator
(src/frontend/src/components/MediaCard.tsx): the two useState cells, whether
an IntersectionObserver registration is live, whether an asynchronous
generate() call is in flight, and how many capture attempts have started. -/
structure CardState where
  videoThumb : Option (List Char)
  isGeneratingThumb : Bool
  observerActive : Bool
  inFlight : Bool
  attempts : Nat
deriving DecidableEq, Repr

/-- One run of the useEffect body (deps are url, videoThumb and
isGeneratingThumb, so the effect re-runs after every state change): the
cleanup disconnects any live observer, and the body registers a new one
exactly when videoThumb is null and no generation is marked in flight
(the early return on line 78). -/
def runEffect (s : CardState) : CardState :=
  if s.videoThumb.isSome || s.isGeneratingThumb then
    { s with observerActive := false }
  else
    { s with observerActive := true }

/-- State before the first effect run: both cells at their initial values. -/
def initialState : CardState :=
  { videoThumb := none, isGeneratingThumb := false, observerActive := false,
    inFlight := false, attempts := 0 }

/-- State after mount: the first effect run registers the observer. -/
def mountState : CardState := runEffect initialState

/-- External events driving the card: the observer fires with an intersecting
entry; the asynchronous generate() finishes having stored a data URL; or it
finishes on the failure path (metadata load error, seek error, or any
exception during capture, all funnelled into the catch of line 156). -/
inductive CardEvent where
  | intersect
  | finishSuccess (dataUrl : List Char)
  | finishFail
deriving DecidableEq, Repr

/-- One transition of the card, ending with the implied effect re-run that
React performs after the state updates:
intersect runs start() (line 83): disconnect the observer, set
isGeneratingThumb, launch generate(); finishSuccess stores the data URL and
clears isGeneratingThumb (lines 154 and 160); finishFail keeps videoThumb
null and clears isGeneratingThumb (lines 158 and 160), after which the
re-run effect registers a fresh observer. -/
def step (s : CardState) : CardEvent → CardState
  | CardEvent.intersect =>
    if s.observerActive then
      runEffect { s with observerActive := false, isGeneratingThumb := true,
                         inFlight := true, attempts := s.attempts + 1 }
    else s
  | CardEvent.finishSuccess d =>
    if s.inFlight then
      runEffect { s with videoThumb := some d, isGeneratingThumb := false, inFlight := false }
    else s
  | CardEvent.finishFail =>
    if s.inFlight then
      runEffect { s with videoThumb := none, isGeneratingThumb := false, inFlight := false }
    else s

/-- Run of the card machine over a list of events. -/
def run (s : CardState) : List CardEvent → CardState
  | [] => s
  | e :: es => run (step s e) es

/-- JS Math.round on the embedded rational model of JS numbers: half values
round up, matching floor of the value plus one half. -/
def jsRound (q : ℚ) : Int := Int.floor (q + 1 / 2)

/-- Effective video width used by the capture code (line 144: videoWidth with
the JS or-else fallback 640 when the metadata reports zero). -/
def vwEff (videoWidth : Nat) : Nat := if videoWidth = 0 then 640 else videoWidth

/-- Effective video height (line 145: videoHeight, falling back to the floor
of the 16 to 9 height of the effective width when the metadata reports
zero). -/
def vhEff (videoWidth videoHeight : Nat) : Nat :=
  if videoHeight = 0 then vwEff videoWidth * 9 / 16 else videoHeight

/-- The off-screen bitmap and still-image encoding produced by a successful
capture (lines 143 to 153 of MediaCard.tsx): canvas dimensions, the mime
type and the quality passed to toDataURL.  JS number arithmetic is
modelled over the rationals. -/
structure Thumb where
  width : Nat
  height : Nat
  mime : List Char
  quality : ℚ
deriving DecidableEq, Repr

/-- The capture computation: width fixed at 600, height the rounded
proportional scaling clamped below at 1, encoded as image/jpeg at
quality 0.8. -/
def makeThumb (videoWidth videoHeight : Nat) : Thumb :=
  { width := 600
    height := max 1 (jsRound ((vhEff videoWidth videoHeight : ℚ) *
      (600 / (vwEff videoWidth : ℚ)))).toNat
    mime := "image/jpeg".toList
    quality := 8 / 10 }

/-- Token form of the encoding of one character: the literal itself when
unescaped, otherwise its escaped UTF-8 bytes. -/
def charToks (c : Char) : List Tok :=
  if isUnreserved c then [Tok.lit c] else (utf8Bytes c.toNat).map Tok.byte

/-- Token form of the encoding of a whole segment. -/
def encToks (s : List Char) : List Tok := s.flatMap charToks

/-- No segment other than the last ends with an underscore. -/
def noMidTrailU : List (List Char) → Bool
  | [] => true
  | [_] => true
  | x :: rest => !endsU x && noMidTrailU rest

/-- C8: a request rejected by the rate limiter is answered 429 with the
plain-text throttling message and nothing else happens: for every token
(even a malformed one), store, and parameter assignment the result is the
same 429 response with zero object-store calls, so the key is neither
decoded nor path-checked and the store is never consulted. -/
theorem c8_rate_limited_short_circuit (token : List Char)
    (store : List Char → Option StoredObject) (width height quality : Option (List Char)) :
    onRequestGet false token store width height quality =
      (some { status := 429, body := RBody.text rateLimitedMsg,
              contentType := none, cacheControl := none }, 0) := rfl

/-- C10: a falsy configured rate-limit value (absent, or zero) is replaced by
the defaults 50 requests and 60000 ms, and no configuration can make the
effective limit or window zero. -/
theorem c10_rate_limit_defaults :
    effLimit (some 0) = 50 ∧ effLimit none = 50 ∧
    effWindow (some 0) = 60000 ∧ effWindow none = 60000 ∧
    ∀ cfg : Option Nat, effLimit cfg ≠ 0 ∧ effWindow cfg ≠ 0 := by
  refine ⟨rfl, rfl, rfl, rfl, ?_⟩
  intro cfg
  cases cfg with
  | none => exact ⟨by decide, by decide⟩
  | some n =>
    constructor
    · simp only [effLimit]
      split <;> omega
    · simp only [effWindow]
      split <;> omega

/-- C4: the claim says a malformed token is answered 400; in the code the
URIError thrown by decodeURIComponent on line 19 is not caught, so the
handler produces no response at all (the platform turns this into an
internal error, not a 400).  Evaluated at the failing input token %zz:
the embedded handler aborts with zero store calls and returns no response. -/
theorem c4_malformed_token_uncaught :
    onRequestGet true ['%', 'z', 'z'] (fun _ => none) none none none = (none, 0) ∧
    decodeURIComponent ['%', 'z', 'z'] = none := by decide

/-- A content type that starts with video/ does not start with image/. -/
theorem startsWithL_video_not_image (ct : List Char) (h : startsWithL videoSlash ct = true) :
    startsWithL imageSlash ct = false := by
  have hv : videoSlash = 'v' :: "ideo/".toList := rfl
  have hi : imageSlash = 'i' :: "mage/".toList := rfl
  cases ct with
  | nil => rw [hv] at h; exact absurd h (by simp [startsWithL])
  | cons c cs =>
    rw [hv] at h
    rw [hi]
    simp only [startsWithL, Bool.and_eq_true, beq_iff_eq] at h ⊢
    rcases h with ⟨rfl, -⟩
    simp only [startsWithL, Bool.and_eq_false_iff]
    left
    decide

/-- C2 as stated is false: the decoded path of the two-character token dot-dot
consists of exactly one path segment, namely dot-dot, yet the gateway does
not answer 400: the check of line 22 only looks for the substrings
dot-dot-slash and dot-dot-backslash and a leading slash, so this request
reaches the object store (one store call; with an empty store it ends 404). -/
theorem c2_counterexample :
    decodedKey ['.', '.'] = some ['.', '.'] ∧
    specHasDotDotSegment ['.', '.'] = true ∧
    onRequestGet true ['.', '.'] (fun _ => none) none none none =
      (some { status := 404, body := RBody.text notFoundMsg,
              contentType := none, cacheControl := none }, 1) := by decide

/-- C2 amended: for every admitted request token whose decoded, delimiter-
joined path contains dot-dot-slash or dot-dot-backslash as a substring or
starts with a slash, the gateway answers 400 with the invalid-path message
and performs zero object-store calls; a bare trailing dot-dot segment is
not rejected. -/
theorem c2_amended (token key : List Char) (store : List Char → Option StoredObject)
    (width height quality : Option (List Char))
    (hdec : decodedKey token = some key) (hbad : pathTraversal key = true) :
    onRequestGet true token store width height quality =
      (some { status := 400, body := RBody.text invalidPathMsg,
              contentType := none, cacheControl := none }, 0) := by
  simp [onRequestGet, hdec, hbad]

theorem c2_witness :
    onRequestGet true ['.', '.', '_', '_', '_', 'a'] (fun _ => none) none none none =
      (some { status := 400, body := RBody.text invalidPathMsg,
              contentType := none, cacheControl := none }, 0) :=
  c2_amended ['.', '.', '_', '_', '_', 'a'] ['.', '.', '/', 'a'] (fun _ => none)
    none none none (by decide) (by decide)

/-- C5 as stated is false at an empty-valued parameter: a request carrying the
width query parameter with the empty value (written width= in the URL) on a
stored video object is not answered 400; the empty string is falsy in the
guard of line 50, so the gateway streams the object bytes with status 200. -/
theorem c5_counterexample :
    onRequestGet true ['v']
      (fun k => if k = ['v'] then
        some { contentType := some ("video/mp4".toList), bodyId := 7 } else none)
      (some []) none none =
      (some { status := 200, body := RBody.object 7,
              contentType := some ("video/mp4".toList),
              cacheControl := some longCacheControl }, 1) := by decide

/-- C5 amended: for every admitted request with a non-empty width or height
query parameter on a stored object whose content type starts with the video
type, the gateway answers 400 with the JSON body carrying the error and
suggestion messages, and does not return the object bytes. -/
theorem c5_amended (token key : List Char) (store : List Char → Option StoredObject)
    (obj : StoredObject) (ct : List Char) (width height quality : Option (List Char))
    (hdec : decodedKey token = some key) (hpath : pathTraversal key = false)
    (hobj : store key = some obj) (hct : obj.contentType = some ct)
    (hvid : startsWithL videoSlash ct = true)
    (hres : (truthy width || truthy height) = true) :
    onRequestGet true token store width height quality =
      (some { status := 400, body := RBody.jsonErr videoThumbErrMsg videoThumbSuggestion,
              contentType := some appJson, cacheControl := none }, 1) := by
  have himg := startsWithL_video_not_image ct hvid
  simp [onRequestGet, hdec, hpath, hobj, hres, ctStartsWith, hct, himg, hvid]

theorem c5_witness :
    onRequestGet true ['v']
      (fun k => if k = ['v'] then
        some { contentType := some ("video/mp4".toList), bodyId := 7 } else none)
      (some ['1', '0', '0']) none none =
      (some { status := 400, body := RBody.jsonErr videoThumbErrMsg videoThumbSuggestion,
              contentType := some appJson, cacheControl := none }, 1) :=
  c5_amended ['v'] ['v']
    (fun k => if k = ['v'] then
      some { contentType := some ("video/mp4".toList), bodyId := 7 } else none)
    { contentType := some ("video/mp4".toList), bodyId := 7 } ("video/mp4".toList)
    (some ['1', '0', '0']) none none
    (by decide) (by decide) (by decide) (by decide) (by decide) (by decide)

/-- C6: a request with a width or height query parameter on a stored object
whose content type starts with the image type is answered 200 with the
original object bytes and the original stored content-type header (never
the unsupported-transform error); this holds whether or not the parameter
value is truthy, because both the resize branch of line 44 and the default
branch of line 65 return the original bytes with the stored content type. -/
theorem c6_image_resize_passthrough (token key : List Char)
    (store : List Char → Option StoredObject) (obj : StoredObject) (ct : List Char)
    (width height quality : Option (List Char))
    (hdec : decodedKey token = some key) (hpath : pathTraversal key = false)
    (hobj : store key = some obj) (hct : obj.contentType = some ct)
    (himg : startsWithL imageSlash ct = true)
    (hparam : width ≠ none ∨ height ≠ none) :
    onRequestGet true token store width height quality =
      (some { status := 200, body := RBody.object obj.bodyId,
              contentType := some ct, cacheControl := some longCacheControl }, 1) := by
  by_cases hw : (truthy width || truthy height) = true
  · simp [onRequestGet, hdec, hpath, hobj, hw, ctStartsWith, hct, himg]
  · simp [onRequestGet, hdec, hpath, hobj, hw, ctStartsWith, hct]

theorem c6_witness :
    onRequestGet true ['p']
      (fun k => if k = ['p'] then
        some { contentType := some ("image/png".toList), bodyId := 9 } else none)
      (some ['1', '0', '0']) none none =
      (some { status := 200, body := RBody.object 9,
              contentType := some ("image/png".toList),
              cacheControl := some longCacheControl }, 1) :=
  c6_image_resize_passthrough ['p'] ['p']
    (fun k => if k = ['p'] then
      some { contentType := some ("image/png".toList), bodyId := 9 } else none)
    { contentType := some ("image/png".toList), bodyId := 9 } ("image/png".toList)
    (some ['1', '0', '0']) none none
    (by decide) (by decide) (by decide) (by decide) (by decide)
    (Or.inl (by decide))

/-- C7 as stated is false in one respect: the cache-control header the gateway
sets is exactly public, max-age=31536000, which contains no immutable
directive; evaluated on a concrete plain request the stored text object is
streamed with that header, and the header does not contain the word
immutable. -/
theorem c7_counterexample :
    onRequestGet true ['t']
      (fun k => if k = ['t'] then
        some { contentType := some ("text/plain".toList), bodyId := 3 } else none)
      none none none =
      (some { status := 200, body := RBody.object 3,
              contentType := some ("text/plain".toList),
              cacheControl := some longCacheControl }, 1) ∧
    hasSub ("immutable".toList) longCacheControl = false ∧
    longCacheControl = "public, max-age=31536000".toList := by decide

/-- C7 amended: every admitted request that passes the key and existence
checks and matches no resize branch streams the object body with the
content type taken from stored metadata (application/octet-stream when the
metadata has none) and the cache-control header public, max-age=31536000
(public, one year, without an immutable directive). -/
theorem c7_amended (token key : List Char) (store : List Char → Option StoredObject)
    (obj : StoredObject) (width height quality : Option (List Char))
    (hdec : decodedKey token = some key) (hpath : pathTraversal key = false)
    (hobj : store key = some obj)
    (hnoimg : ((truthy width || truthy height) &&
      ctStartsWith imageSlash obj.contentType) = false)
    (hnovid : ((truthy width || truthy height) &&
      ctStartsWith videoSlash obj.contentType) = false) :
    onRequestGet true token store width height quality =
      (some { status := 200, body := RBody.object obj.bodyId,
              contentType := some (obj.contentType.getD octetStream),
              cacheControl := some longCacheControl }, 1) := by
  simp [onRequestGet, hdec, hpath, hobj, hnoimg, hnovid]

theorem c7_witness :
    onRequestGet true ['b'] (fun k => if k = ['b'] then
      some { contentType := none, bodyId := 5 } else none) none none none =
      (some { status := 200, body := RBody.object 5,
              contentType := some octetStream,
              cacheControl := some longCacheControl }, 1) :=
  c7_amended ['b'] ['b']
    (fun k => if k = ['b'] then some { contentType := none, bodyId := 5 } else none)
    { contentType := none, bodyId := 5 } none none none
    (by decide) (by decide) (by decide) (by decide) (by decide)

/-- C1 as stated is false: after a failed capture the effect re-run registers
the observer again (videoThumb is still null and isGeneratingThumb was
reset), so a still-visible card fires a second intersection and a second
capture attempt starts: from mount, the trace intersect, failure,
intersect reaches two attempts, and after the failure the observer is
provably live again. -/
theorem c1_counterexample :
    (run mountState [CardEvent.intersect, CardEvent.finishFail, CardEvent.intersect]).attempts = 2 ∧
    (run mountState [CardEvent.intersect, CardEvent.finishFail]).videoThumb = none ∧
    (run mountState [CardEvent.intersect, CardEvent.finishFail]).observerActive = true := by decide

/-- C1 amended: a failed capture leaves the placeholder displayed (videoThumb
stays null) but is not terminal: the state returned to is the observing one
with a re-registered viewport observer, so a further capture attempt starts
when the card intersects again.  Only the rendered state is stable: once a
thumbnail string is stored and no observer or generation is live, every
later event sequence leaves the thumbnail and the attempt count unchanged. -/
theorem c1_amended :
    (∀ s : CardState, s.inFlight = true →
      step s CardEvent.finishFail =
        { videoThumb := none, isGeneratingThumb := false, observerActive := true,
          inFlight := false, attempts := s.attempts }) ∧
    (∀ (s : CardState) (d : List Char) (events : List CardEvent),
      s.videoThumb = some d → s.observerActive = false → s.inFlight = false →
      (run s events).videoThumb = some d ∧ (run s events).attempts = s.attempts) := by
  constructor
  · intro s hf
    simp [step, hf, runEffect]
  · intro s d events hthumb hobs hflight
    have stable : ∀ (t : CardState) (e : CardEvent),
        t.videoThumb = some d → t.observerActive = false → t.inFlight = false →
        step t e = t := by
      intro t e ht ho hi
      cases e with
      | intersect => simp [step, ho]
      | finishSuccess d2 => simp [step, hi]
      | finishFail => simp [step, hi]
    induction events generalizing s with
    | nil => exact ⟨hthumb, rfl⟩
    | cons e es ih =>
      rw [run, stable s e hthumb hobs hflight]
      exact ih s hthumb hobs hflight

theorem c1_witness :
    step { videoThumb := none, isGeneratingThumb := true, observerActive := false,
           inFlight := true, attempts := 1 } CardEvent.finishFail =
      { videoThumb := none, isGeneratingThumb := false, observerActive := true,
        inFlight := false, attempts := 1 } ∧
    (run { videoThumb := some ['x'], isGeneratingThumb := false, observerActive := false,
           inFlight := false, attempts := 1 }
       [CardEvent.intersect, CardEvent.finishFail, CardEvent.intersect]).videoThumb =
      some ['x'] :=
  ⟨c1_amended.1 _ rfl,
   (c1_amended.2 _ ['x'] [CardEvent.intersect, CardEvent.finishFail, CardEvent.intersect]
     rfl rfl rfl).1⟩

/-- C9: for a successful capture on a video with known nonzero dimensions the
bitmap is exactly 600 pixels wide, its height is the video height scaled
proportionally and rounded but never below 1 pixel, the frame is encoded
as image/jpeg at quality 0.8, and the resulting string is stored verbatim
on the card state by the finishing transition. -/
theorem c9_capture_dimensions (videoWidth videoHeight : Nat)
    (hw : videoWidth ≠ 0) (hh : videoHeight ≠ 0) :
    makeThumb videoWidth videoHeight =
      { width := 600,
        height := max 1 (jsRound ((videoHeight : ℚ) * 600 / (videoWidth : ℚ))).toNat,
        mime := "image/jpeg".toList, quality := 8 / 10 } ∧
    1 ≤ (makeThumb videoWidth videoHeight).height ∧
    ∀ (s : CardState) (d : List Char), s.inFlight = true →
      (step s (CardEvent.finishSuccess d)).videoThumb = some d := by
  refine ⟨?_, ?_, ?_⟩
  · simp only [makeThumb, vhEff, vwEff, if_neg hw, if_neg hh]
    congr 2
    rw [mul_div_assoc]
  · exact le_max_left 1 _
  · intro s d hf
    simp [step, hf, runEffect]

theorem c9_witness :
    makeThumb 640 360 =
      { width := 600, height := 338, mime := "image/jpeg".toList, quality := 8 / 10 } := by
  have h := (c9_capture_dimensions 640 360 (by decide) (by decide)).1
  rw [h]
  norm_num [jsRound]
  rfl

/-- hexVal inverts hexDigit on byte nibbles. -/
theorem hexVal_hexDigit (n : Nat) (h : n < 16) : hexVal (hexDigit n) = some n := by
  interval_cases n <;> decide

/-- Hex digit characters are never an underscore. -/
theorem hexDigit_ne_underscore (n : Nat) (h : n < 16) : hexDigit n ≠ '_' := by
  interval_cases n <;> decide

/-- UTF-8 encoding of a scalar value below 0x110000 produces bytes. -/
theorem utf8Bytes_lt (n : Nat) (h : n < 1114112) : ∀ b ∈ utf8Bytes n, b < 256 := by
  intro b hb
  unfold utf8Bytes at hb
  split at hb
  · simp at hb
    omega
  · split at hb
    · simp at hb
      rcases hb with hb | hb <;> omega
    · split at hb
      · simp at hb
        rcases hb with hb | hb | hb <;> omega
      · simp at hb
        rcases hb with hb | hb | hb | hb <;> omega

/-- The scalar value of a character is below 0x110000. -/
theorem char_toNat_lt (c : Char) : c.toNat < 1114112 := by
  have h := c.valid
  simp only [UInt32.isValidChar, Nat.isValidChar] at h
  show c.val.toNat < 1114112
  rcases h with h | h <;> omega

/-- The scalar value of a character avoids the surrogate range. -/
theorem char_valid_range (c : Char) :
    c.toNat < 55296 ∨ (57343 < c.toNat ∧ c.toNat < 1114112) := by
  have h := c.valid
  simp only [UInt32.isValidChar, Nat.isValidChar] at h
  show c.val.toNat < 55296 ∨ (57343 < c.val.toNat ∧ c.val.toNat < 1114112)
  rcases h with h | h
  · exact Or.inl h
  · exact Or.inr h

/-- The scanner consumes one whole percent escape. -/
theorem toks_pct (b : Nat) (hb : b < 256) (rest : List Char) :
    toks (pctByte b ++ rest) = (toks rest).map (fun ts => Tok.byte b :: ts) := by
  have h1 : hexVal (hexDigit (b / 16)) = some (b / 16) := hexVal_hexDigit _ (by omega)
  have h2 : hexVal (hexDigit (b % 16)) = some (b % 16) := hexVal_hexDigit _ (by omega)
  have h3 : 16 * (b / 16) + b % 16 = b := Nat.div_add_mod b 16
  show toks ('%' :: hexDigit (b / 16) :: hexDigit (b % 16) :: rest) = _
  rw [toks]
  simp only [reduceIte, h1, h2, h3]

/-- The scanner passes a non-percent character through as a literal. -/
theorem toks_lit (c : Char) (hc : c ≠ '%') (rest : List Char) :
    toks (c :: rest) = (toks rest).map (fun ts => Tok.lit c :: ts) := by
  rcases rest with _ | ⟨h1, _ | ⟨h2, rest2⟩⟩
  · rw [toks.eq_3 c [] (by intro a b r h; cases h), if_neg hc]
  · rw [toks.eq_3 c [h1] (by intro a b r h; simp at h), if_neg hc]
  · rw [toks.eq_2, if_neg hc]

/-- Unescaped characters are not the percent sign. -/
theorem isUnreserved_ne_pct (c : Char) (h : isUnreserved c = true) : c ≠ '%' := by
  intro hc
  subst hc
  exact absurd h (by decide)

/-- The scanner consumes a run of percent escapes byte by byte. -/
theorem toks_bytes (bs : List Nat) (hbs : ∀ b ∈ bs, b < 256) (rest : List Char) :
    toks (bs.flatMap pctByte ++ rest) = (toks rest).map (fun ts => bs.map Tok.byte ++ ts) := by
  induction bs with
  | nil =>
    show toks rest = (toks rest).map (fun ts => [] ++ ts)
    simp
  | cons b bs ih =>
    have hb : b < 256 := hbs b (by simp)
    have ihh := ih (fun x hx => hbs x (by simp [hx]))
    simp only [List.flatMap_cons, List.append_assoc]
    rw [toks_pct b hb, ihh]
    cases toks rest <;> simp

/-- The scanner maps the encoding of one character to its token form. -/
theorem toks_encChar (c : Char) (rest : List Char) :
    toks (encChar c ++ rest) = (toks rest).map (fun ts => charToks c ++ ts) := by
  by_cases h : isUnreserved c = true
  · rw [encChar, if_pos h, charToks, if_pos h]
    rw [List.singleton_append, toks_lit c (isUnreserved_ne_pct c h) rest]
    rfl
  · rw [encChar, if_neg h, charToks, if_neg h]
    exact toks_bytes _ (fun b hb => utf8Bytes_lt c.toNat (char_toNat_lt c) b hb) rest

/-- The scanner accepts every encoded string and yields its token form. -/
theorem toks_encodeURIComponent (s : List Char) :
    toks (encodeURIComponent s) = some (encToks s) := by
  induction s with
  | nil => rfl
  | cons c cs ih =>
    show toks (encChar c ++ encodeURIComponent cs) = _
    rw [toks_encChar, ih]
    rfl

/-- Consuming one continuation byte while more are expected. -/
theorem detoksSM_cont (k acc lo v : Nat) (rest : List Tok)
    (hv : isCont v = true) (hk : ¬ k ≤ 1) :
    detoksSM (UState.need k acc lo) (Tok.byte v :: rest) =
      detoksSM (UState.need (k - 1) (acc * 64 + (v - 128)) lo) rest := by
  rw [detoksSM.eq_6, if_pos hv]
  simp only []
  rw [if_neg hk]

/-- Consuming the final continuation byte of a legal sequence emits the
accumulated scalar value as a character. -/
theorem detoksSM_last (acc lo v : Nat) (rest : List Tok) (hv : isCont v = true)
    (h1 : lo ≤ acc * 64 + (v - 128)) (h2 : acc * 64 + (v - 128) < 1114112)
    (h3 : acc * 64 + (v - 128) < 55296 ∨ 57344 ≤ acc * 64 + (v - 128)) :
    detoksSM (UState.need 1 acc lo) (Tok.byte v :: rest) =
      (detoksSM UState.clean rest).map
        (fun s => Char.ofNat (acc * 64 + (v - 128)) :: s) := by
  rw [detoksSM.eq_6, if_pos hv]
  simp only []
  rw [if_pos (by omega)]
  rw [if_pos (by
    simp only [Bool.and_eq_true, Bool.not_eq_true', Bool.and_eq_false_iff,
      decide_eq_true_eq, decide_eq_false_iff_not]
    omega)]

/-- Continuation bytes produced by the encoder are continuation bytes. -/
theorem isCont_of_mod (m : Nat) : isCont (128 + m % 64) = true := by
  simp only [isCont, Bool.and_eq_true, decide_eq_true_eq]
  omega

/-- The automaton decodes the token form of one encoded character and then
proceeds with the remaining tokens. -/
theorem detoks_charToks (c : Char) (ts : List Tok) :
    detoksSM UState.clean (charToks c ++ ts) =
      (detoksSM UState.clean ts).map (fun s => c :: s) := by
  by_cases hu : isUnreserved c = true
  · rw [charToks, if_pos hu]
    rw [List.singleton_append, detoksSM.eq_2]
  · rw [charToks, if_neg hu]
    have hval := char_valid_range c
    have hofn := Char.ofNat_toNat c
    by_cases hr1 : c.toNat < 128
    · have e : utf8Bytes c.toNat = [c.toNat] := by
        simp only [utf8Bytes, if_pos hr1]
      rw [e, List.map_cons, List.map_nil, List.cons_append, List.nil_append]
      rw [detoksSM.eq_3, if_pos hr1, hofn]
    · by_cases hr2 : c.toNat < 2048
      · have e : utf8Bytes c.toNat = [192 + c.toNat / 64, 128 + c.toNat % 64] := by
          simp only [utf8Bytes, if_neg hr1, if_pos hr2]
        rw [e, List.map_cons, List.map_cons, List.map_nil, List.cons_append,
          List.cons_append, List.nil_append]
        rw [detoksSM.eq_3, if_neg (by omega), if_neg (by omega), if_pos (by omega)]
        rw [detoksSM_last _ _ _ _ (isCont_of_mod _) (by omega) (by omega) (by omega)]
        have en : (192 + c.toNat / 64 - 192) * 64 + (128 + c.toNat % 64 - 128) = c.toNat := by
          omega
        rw [en, hofn]
      · by_cases hr3 : c.toNat < 65536
        · have e : utf8Bytes c.toNat =
              [224 + c.toNat / 4096, 128 + c.toNat / 64 % 64, 128 + c.toNat % 64] := by
            simp only [utf8Bytes, if_neg hr1, if_neg hr2, if_pos hr3]
          rw [e, List.map_cons, List.map_cons, List.map_cons, List.map_nil,
            List.cons_append, List.cons_append, List.cons_append, List.nil_append]
          rw [detoksSM.eq_3, if_neg (by omega), if_neg (by omega), if_neg (by omega),
            if_pos (by omega)]
          rw [detoksSM_cont _ _ _ _ _ (isCont_of_mod _) (by omega)]
          rw [detoksSM_last _ _ _ _ (isCont_of_mod _) (by omega) (by omega) (by omega)]
          have en : ((224 + c.toNat / 4096 - 224) * 64 + (128 + c.toNat / 64 % 64 - 128)) * 64 +
              (128 + c.toNat % 64 - 128) = c.toNat := by
            omega
          rw [en, hofn]
        · have hr4 : c.toNat < 1114112 := char_toNat_lt c
          have e : utf8Bytes c.toNat =
              [240 + c.toNat / 262144, 128 + c.toNat / 4096 % 64,
               128 + c.toNat / 64 % 64, 128 + c.toNat % 64] := by
            simp only [utf8Bytes, if_neg hr1, if_neg hr2, if_neg hr3]
          rw [e, List.map_cons, List.map_cons, List.map_cons, List.map_cons, List.map_nil,
            List.cons_append, List.cons_append, List.cons_append, List.cons_append,
            List.nil_append]
          rw [detoksSM.eq_3, if_neg (by omega), if_neg (by omega), if_neg (by omega),
            if_neg (by omega), if_pos (by omega)]
          rw [detoksSM_cont _ _ _ _ _ (isCont_of_mod _) (by omega)]
          rw [detoksSM_cont _ _ _ _ _ (isCont_of_mod _) (by omega)]
          rw [detoksSM_last _ _ _ _ (isCont_of_mod _) (by omega) (by omega) (by omega)]
          have en : (((240 + c.toNat / 262144 - 240) * 64 + (128 + c.toNat / 4096 % 64 - 128)) * 64 +
              (128 + c.toNat / 64 % 64 - 128)) * 64 + (128 + c.toNat % 64 - 128) = c.toNat := by
            omega
          rw [en, hofn]

/-- The automaton inverts the encoding of every segment. -/
theorem detoks_encToks (s : List Char) : detoks (encToks s) = some s := by
  show detoksSM UState.clean (encToks s) = some s
  induction s with
  | nil => rfl
  | cons c cs ih =>
    show detoksSM UState.clean (charToks c ++ encToks cs) = _
    rw [detoks_charToks, ih]
    rfl

/-- Round trip of the percent codec on one segment. -/
theorem decode_encode_segment (s : List Char) :
    decodeURIComponent (encodeURIComponent s) = some s := by
  rw [decodeURIComponent, toks_encodeURIComponent]
  exact detoks_encToks s

/-- The run scanner is monotone in the run length already seen. -/
theorem hasRun_mono (s : List Char) : ∀ j k, j ≤ k → hasRun j s = true → hasRun k s = true := by
  induction s with
  | nil => intro j k _ h; exact absurd h (by simp [hasRun])
  | cons c cs ih =>
    intro j k hjk h
    by_cases hc : c = '_'
    · subst hc
      rw [hasRun, if_pos rfl] at h ⊢
      by_cases h2 : 2 ≤ j
      · rw [if_pos (by omega)]
      · rw [if_neg h2] at h
        by_cases h2k : 2 ≤ k
        · rw [if_pos h2k]
        · rw [if_neg h2k]
          exact ih (j + 1) (k + 1) (by omega) h
    · rw [hasRun, if_neg hc] at h ⊢
      exact h

/-- A clean scan of a list gives a clean scan of its tail. -/
theorem hasRun_zero_tail (c : Char) (cs : List Char) (h : hasRun 0 (c :: cs) = false) :
    hasRun 0 cs = false := by
  by_cases hc : c = '_'
  · subst hc
    rw [hasRun, if_pos rfl, if_neg (by omega)] at h
    cases hr : hasRun 0 cs
    · rfl
    · exact absurd (hasRun_mono cs 0 1 (by omega) hr) (by simp [h])
  · rw [hasRun, if_neg hc] at h
    exact h

/-- A two-underscore head implies a one-underscore head. -/
theorem startsWith_uu_u (cs : List Char) (h : startsWithL ['_', '_'] cs = true) :
    startsWithL ['_'] cs = true := by
  rcases cs with _ | ⟨d, r⟩
  · simp [startsWithL] at h
  · simp only [startsWithL, Bool.and_eq_true] at h ⊢
    exact ⟨h.1, trivial⟩

/-- Runs of length one and two pending relate to explicit underscore heads. -/
theorem hasRun_one_two (s : List Char) :
    hasRun 1 s = (startsWithL ['_', '_'] s || hasRun 0 s) ∧
    hasRun 2 s = (startsWithL ['_'] s || hasRun 0 s) := by
  induction s with
  | nil => constructor <;> rfl
  | cons c cs ih =>
    by_cases hc : c = '_'
    · subst hc
      constructor
      · rw [hasRun, if_pos rfl, if_neg (by omega), ih.2]
        have hr : hasRun 0 ('_' :: cs) = hasRun 1 cs := by
          rw [hasRun, if_pos rfl, if_neg (by omega)]
        rw [hr, ih.1]
        have hsw : startsWithL ['_', '_'] ('_' :: cs) = startsWithL ['_'] cs := by
          simp [startsWithL]
        rw [hsw]
        cases h2 : startsWithL ['_', '_'] cs
        · simp
        · simp [startsWith_uu_u cs h2]
      · rw [hasRun, if_pos rfl, if_pos (by omega)]
        simp [startsWithL]
    · have hbeq : ('_' == c) = false := by
        simp only [beq_eq_false_iff_ne, ne_eq]
        exact fun hh => hc hh.symm
      constructor
      · rw [hasRun, if_neg hc]
        have hr : hasRun 0 (c :: cs) = hasRun 0 cs := by rw [hasRun, if_neg hc]
        rw [hr]
        simp [startsWithL, hbeq]
      · rw [hasRun, if_neg hc]
        have hr : hasRun 0 (c :: cs) = hasRun 0 cs := by rw [hasRun, if_neg hc]
        rw [hr]
        simp [startsWithL, hbeq]

/-- JS includes of the three-underscore delimiter agrees with the run scanner. -/
theorem hasSub_delim_eq_hasRun (s : List Char) :
    hasSub ['_', '_', '_'] s = hasRun 0 s := by
  induction s with
  | nil => rfl
  | cons c cs ih =>
    rw [hasSub, ih]
    by_cases hc : c = '_'
    · subst hc
      have hr : hasRun 0 ('_' :: cs) = hasRun 1 cs := by
        rw [hasRun, if_pos rfl, if_neg (by omega)]
      rw [hr, (hasRun_one_two cs).1]
      simp [startsWithL]
    · have hbeq : ('_' == c) = false := by
        simp only [beq_eq_false_iff_ne, ne_eq]
        exact fun hh => hc hh.symm
      have hr : hasRun 0 (c :: cs) = hasRun 0 cs := by rw [hasRun, if_neg hc]
      rw [hr]
      simp [startsWithL, hbeq]

/-- Scanning across an underscore-free nonempty block resets the run. -/
theorem hasRun_clean_append (a : List Char) : a ≠ [] → (∀ x ∈ a, x ≠ '_') →
    ∀ (k : Nat) (t : List Char), hasRun k (a ++ t) = hasRun 0 t := by
  induction a with
  | nil => intro h; exact absurd rfl h
  | cons c cs ih =>
    intro _ ha k t
    have hc : c ≠ '_' := ha c (by simp)
    rcases eq_or_ne cs [] with hcs | hcs
    · subst hcs
      rw [List.cons_append, List.nil_append, hasRun, if_neg hc]
    · rw [List.cons_append, hasRun, if_neg hc]
      exact ih hcs (fun x hx => ha x (by simp [hx])) 0 t

/-- The UTF-8 byte list is never empty. -/
theorem utf8Bytes_ne_nil (n : Nat) : utf8Bytes n ≠ [] := by
  unfold utf8Bytes
  split_ifs <;> simp

/-- The encoding of a character is never empty. -/
theorem encChar_ne_nil (c : Char) : encChar c ≠ [] := by
  by_cases hu : isUnreserved c = true
  · rw [encChar, if_pos hu]
    simp
  · rw [encChar, if_neg hu]
    obtain ⟨b, bs, he⟩ : ∃ b bs, utf8Bytes c.toNat = b :: bs := by
      rcases hx : utf8Bytes c.toNat with _ | ⟨b, bs⟩
      · exact absurd hx (utf8Bytes_ne_nil _)
      · exact ⟨b, bs, rfl⟩
    rw [he]
    simp [pctByte]

/-- The encoding of a non-underscore character contains no underscore. -/
theorem encChar_no_underscore (c : Char) (hc : c ≠ '_') : ∀ x ∈ encChar c, x ≠ '_' := by
  by_cases hu : isUnreserved c = true
  · rw [encChar, if_pos hu]
    intro x hx
    simp only [List.mem_singleton] at hx
    subst hx
    exact hc
  · rw [encChar, if_neg hu]
    intro x hx
    rw [List.mem_flatMap] at hx
    obtain ⟨b, hb, hxb⟩ := hx
    have hblt : b < 256 := utf8Bytes_lt c.toNat (char_toNat_lt c) b hb
    simp only [pctByte, List.mem_cons, List.not_mem_nil, or_false] at hxb
    rcases hxb with rfl | rfl | rfl
    · decide
    · exact hexDigit_ne_underscore _ (by omega)
    · exact hexDigit_ne_underscore _ (by omega)

/-- Percent-encoding preserves the underscore-run structure of a string. -/
theorem hasRun_encodeURIComponent (s : List Char) :
    ∀ k, hasRun k (encodeURIComponent s) = hasRun k s := by
  induction s with
  | nil => intro k; rfl
  | cons c cs ih =>
    intro k
    show hasRun k (encChar c ++ encodeURIComponent cs) = _
    by_cases hc : c = '_'
    · subst hc
      have e : encChar '_' = ['_'] := by decide
      rw [e, List.singleton_append]
      by_cases h2 : 2 ≤ k
      · rw [hasRun, if_pos rfl, if_pos h2, hasRun, if_pos rfl, if_pos h2]
      · rw [hasRun, if_pos rfl, if_neg h2, hasRun, if_pos rfl, if_neg h2]
        exact ih (k + 1)
    · rw [hasRun_clean_append (encChar c) (encChar_ne_nil c) (encChar_no_underscore c hc) k,
        ih 0, hasRun, if_neg hc]

/-- endsU only looks at the second list of an append with nonempty tail. -/
theorem endsU_append (a b : List Char) (hb : b ≠ []) : endsU (a ++ b) = endsU b := by
  rw [endsU, endsU, List.getLast?_append]
  cases hlb : b.getLast? with
  | none =>
    have hs := List.getLast?_isSome.mpr hb
    rw [hlb] at hs
    simp at hs
  | some x => rfl

/-- A list of non-underscore characters does not end with an underscore. -/
theorem endsU_eq_false_of (s : List Char) (h : ∀ x ∈ s, x ≠ '_') : endsU s = false := by
  rw [endsU]
  cases hl : s.getLast? with
  | none => rfl
  | some c =>
    have hc : c ∈ s := by
      obtain ⟨hne, hceq⟩ := List.mem_getLast?_eq_getLast (show c ∈ s.getLast? from hl)
      rw [hceq]
      exact List.getLast_mem hne
    simp [h c hc]

/-- The encoding of a nonempty string is nonempty. -/
theorem encodeURIComponent_ne_nil (s : List Char) (h : s ≠ []) :
    encodeURIComponent s ≠ [] := by
  rcases s with _ | ⟨c, cs⟩
  · exact absurd rfl h
  · show encChar c ++ encodeURIComponent cs ≠ []
    intro hh
    exact encChar_ne_nil c (List.append_eq_nil.mp hh).1

/-- Percent-encoding preserves whether the string ends with an underscore. -/
theorem endsU_encodeURIComponent (s : List Char) :
    endsU (encodeURIComponent s) = endsU s := by
  induction s with
  | nil => rfl
  | cons c cs ih =>
    show endsU (encChar c ++ encodeURIComponent cs) = _
    rcases eq_or_ne cs [] with hcs | hcs
    · subst hcs
      show endsU (encChar c ++ []) = _
      rw [List.append_nil]
      by_cases hc : c = '_'
      · subst hc
        decide
      · rw [endsU_eq_false_of _ (encChar_no_underscore c hc)]
        rw [endsU]
        simp [hc]
    · rw [endsU_append _ _ (encodeURIComponent_ne_nil cs hcs), ih]
      exact (endsU_append [c] cs hcs).symm

/-- A string headed by the delimiter triple contains an underscore run. -/
theorem startsWith_delim_hasRun (s : List Char)
    (h : startsWithL ['_', '_', '_'] s = true) : hasRun 0 s = true := by
  rcases s with _ | ⟨a, _ | ⟨b, _ | ⟨d, r⟩⟩⟩
  · simp [startsWithL] at h
  · simp [startsWithL] at h
  · simp [startsWithL] at h
  · simp only [startsWithL, Bool.and_eq_true, beq_iff_eq] at h
    obtain ⟨h1, h2, h3, -⟩ := h
    subst h1
    subst h2
    subst h3
    rw [hasRun, if_pos rfl, if_neg (by omega), hasRun, if_pos rfl, if_neg (by omega),
      hasRun, if_pos rfl, if_pos (by omega)]

/-- The non-delimiter unfolding of the JS split. -/
theorem splitOn3_cons (c : Char) (rest : List Char)
    (h : startsWithL ['_', '_', '_'] (c :: rest) = false) :
    splitOn3 (c :: rest) = (c :: (splitOn3 rest).headD []) :: (splitOn3 rest).tail := by
  apply splitOn3.eq_2
  intro rest2 hc hr
  subst hc
  subst hr
  simp [startsWithL] at h

/-- Splitting a string free of the delimiter gives that one piece. -/
theorem splitOn3_no_delim (s : List Char) : hasRun 0 s = false → splitOn3 s = [s] := by
  induction s with
  | nil => intro _; rfl
  | cons c cs ih =>
    intro h
    have hst : startsWithL ['_', '_', '_'] (c :: cs) = false := by
      cases hb : startsWithL ['_', '_', '_'] (c :: cs)
      · rfl
      · exact absurd (startsWith_delim_hasRun _ hb) (by simp [h])
    rw [splitOn3_cons c cs hst, ih (hasRun_zero_tail c cs h)]
    rfl

/-- Splitting a delimiter-free piece (not ending in an underscore) followed by
the delimiter and a remainder yields the piece and the split remainder:
the leftmost-match property of the JS split. -/
theorem splitOn3_append_delim (x : List Char) : ∀ (t : List Char),
    hasRun 0 x = false → endsU x = false →
    splitOn3 (x ++ '_' :: '_' :: '_' :: t) = x :: splitOn3 t := by
  induction x with
  | nil =>
    intro t _ _
    rw [List.nil_append, splitOn3.eq_1]
  | cons c cs ih =>
    intro t hx he
    have hxcs : hasRun 0 cs = false := hasRun_zero_tail c cs hx
    rcases eq_or_ne cs [] with hcs | hcs
    · subst hcs
      have hc : c ≠ '_' := by
        intro hcc
        subst hcc
        simp [endsU] at he
      have hbeq : ('_' == c) = false := by
        simp only [beq_eq_false_iff_ne, ne_eq]
        exact fun hh => hc hh.symm
      rw [List.cons_append, List.nil_append]
      rw [splitOn3_cons c _ (by simp [startsWithL, hbeq])]
      rw [splitOn3.eq_1]
      rfl
    · have hecs : endsU cs = false := by
        have h2 := endsU_append [c] cs hcs
        rw [show (c :: cs) = [c] ++ cs from rfl, h2] at he
        exact he
      have hstart : startsWithL ['_', '_', '_'] (c :: (cs ++ '_' :: '_' :: '_' :: t)) = false := by
        cases hb : startsWithL ['_', '_', '_'] (c :: (cs ++ '_' :: '_' :: '_' :: t))
        · rfl
        · exfalso
          rcases cs with _ | ⟨d, _ | ⟨e, cs2⟩⟩
          · exact absurd rfl hcs
          · simp only [List.cons_append, List.nil_append, startsWithL,
              Bool.and_eq_true, beq_iff_eq] at hb
            obtain ⟨h1, h2, -⟩ := hb
            subst h1
            subst h2
            simp [endsU] at hecs
          · simp only [List.cons_append, startsWithL, Bool.and_eq_true, beq_iff_eq] at hb
            obtain ⟨h1, h2, h3, -⟩ := hb
            subst h1
            subst h2
            subst h3
            rw [hasRun, if_pos rfl, if_neg (by omega), hasRun, if_pos rfl, if_neg (by omega),
              hasRun, if_pos rfl, if_pos (by omega)] at hx
            exact absurd hx (by simp)
      rw [List.cons_append, splitOn3_cons c _ hstart, ih t hxcs hecs]
      rfl

/-- Percent-decoding inverts percent-encoding on every segment of a list. -/
theorem mapM_decode_encode (xs : List (List Char)) :
    (xs.map encodeURIComponent).mapM decodeURIComponent = some xs := by
  induction xs with
  | nil => rfl
  | cons x xs ih =>
    rw [List.map_cons, List.mapM_cons, decode_encode_segment, ih]
    rfl

/-- C3 as stated is false: the segment sequence with segments a-underscore and
b satisfies every condition of the claim (no segment contains the
three-underscore delimiter, none is a traversal token or leading slash),
yet the encoded token is a, four underscores, b, whose leftmost split
resplits the boundary: decoding yields the segments a and underscore-b.
The empty sequence also fails: its encoding is the empty token, which
decodes to the one-element sequence holding the empty segment. -/
theorem c3_counterexample :
    hasSub ['_', '_', '_'] ['a', '_'] = false ∧ hasSub ['_', '_', '_'] ['b'] = false ∧
    encodeSegments [['a', '_'], ['b']] = ['a', '_', '_', '_', '_', 'b'] ∧
    decodeSegments (encodeSegments [['a', '_'], ['b']]) = some [['a'], ['_', 'b']] ∧
    ([['a'], ['_', 'b']] : List (List Char)) ≠ [['a', '_'], ['b']] ∧
    decodeSegments (encodeSegments ([] : List (List Char))) = some [[]] := by decide

/-- C3 amended: for every nonempty ordered sequence of path segments in which
no segment contains the three-underscore delimiter substring, no segment is
a traversal token or leading slash, and no segment other than the last ends
with an underscore, decoding the encoding of the sequence yields exactly
the original sequence. -/
theorem c3_amended : ∀ (xs : List (List Char)), xs ≠ [] →
    (∀ x ∈ xs, hasSub ['_', '_', '_'] x = false) →
    (∀ x ∈ xs, x ≠ ['.', '.'] ∧ startsWithL ['/'] x = false) →
    noMidTrailU xs = true →
    decodeSegments (encodeSegments xs) = some xs := by
  intro xs
  induction xs with
  | nil => intro h; exact absurd rfl h
  | cons x xs ih =>
    intro _ hdelim htrav htrail
    have hx : hasRun 0 x = false := by
      rw [← hasSub_delim_eq_hasRun]
      exact hdelim x (by simp)
    have hxe : hasRun 0 (encodeURIComponent x) = false := by
      rw [hasRun_encodeURIComponent]
      exact hx
    rcases xs with _ | ⟨y, ys⟩
    · show decodeSegments (encodeURIComponent x) = some [x]
      rw [decodeSegments, splitOn3_no_delim _ hxe]
      rw [List.mapM_cons, decode_encode_segment]
      rfl
    · have ht : (!endsU x && noMidTrailU (y :: ys)) = true := htrail
      have hxend : endsU (encodeURIComponent x) = false := by
        rw [endsU_encodeURIComponent]
        simp only [Bool.and_eq_true, Bool.not_eq_true'] at ht
        exact ht.1
      have hes : encodeSegments (x :: y :: ys) =
          encodeURIComponent x ++ '_' :: '_' :: '_' :: encodeSegments (y :: ys) := rfl
      rw [hes, decodeSegments, splitOn3_append_delim _ _ hxe hxend]
      rw [List.mapM_cons, decode_encode_segment]
      have hrest := ih (by simp) (fun z hz => hdelim z (by simp [hz]))
        (fun z hz => htrav z (by simp [hz]))
        (by
          simp only [Bool.and_eq_true] at ht
          exact ht.2)
      rw [decodeSegments] at hrest
      rw [hrest]
      rfl

theorem c3_witness :
    decodeSegments (encodeSegments [['a'], ['b', '%']]) = some [['a'], ['b', '%']] :=
  c3_amended [['a'], ['b', '%']] (by decide) (by decide) (by decide) (by decide)
